import Mathlib

/-!
Verification of the bulk import/export job engine.

Shallow embedding of the job-record state machine, distributed lock, the
creation of import jobs, streaming decoders and export query pipeline of
the bulk import/export service, together with theorems settling the
specification claims about them.

Conventions used throughout:
* timestamps are `Nat` (wall-clock values are irrelevant to the claims);
* the relational store is a `List` of job records, updated in place by id;
* JavaScript strings are processed as `List Char` with explicit helper
  functions mirroring the JS primitives used by the source
  (`split`, `trim`, `toLowerCase`);
* external effects (Redis, S3, the BullMQ queue) are explicit state
  components threaded through the functions that touch them;
* `metrics` and `updated_at` (a float-valued JSON blob and an
  ORM-maintained timestamp) are omitted from the record model: no claim
  mentions them and they do not feed back into any modelled branch.
-/

namespace BulkIE

/-- Job status enumeration (`ImportJobStatus` / `ExportJobStatus` in the source). -/
inductive JobStatus where
  | pending
  | processing
  | completed
  | failed
  | cancelled
deriving Repr, DecidableEq

/-- String value of a status, as stored in the database enum. -/
def JobStatus.str : JobStatus → String
  | .pending => "pending"
  | .processing => "processing"
  | .completed => "completed"
  | .failed => "failed"
  | .cancelled => "cancelled"

/-- Resource kinds (`ResourceType` in the source). -/
inductive ResourceType where
  | users
  | articles
  | comments
deriving Repr, DecidableEq

/-- One entry of a job's bounded error list (`ImportJobError` in the source). -/
structure ImportError where
  row : Nat
  field : Option String := none
  message : String
  value : Option String := none
deriving Repr, DecidableEq

/-- The durable import-job record (`ImportJob` entity).  Field names follow the
entity; timestamps are `Nat`, `metrics`/`updatedAt` are omitted (see header). -/
structure ImportJob where
  id : String
  idempotencyKey : Option String := none
  resourceType : ResourceType
  status : JobStatus
  fileUrl : Option String := none
  fileName : Option String := none
  fileSize : Option Nat := none
  fileFormat : Option String := none
  totalRows : Nat := 0
  processedRows : Nat := 0
  successfulRows : Nat := 0
  failedRows : Nat := 0
  skippedRows : Nat := 0
  errors : List ImportError := []
  errorMessage : Option String := none
  startedAt : Option Nat := none
  completedAt : Option Nat := none
  lockedBy : Option String := none
  lockedAt : Option Nat := none
  version : Nat := 1
deriving Repr, DecidableEq

/-- The `Partial<ImportJob>` update objects passed to `atomicStatusTransition`
and `finalizeJob` by their callers.  Exactly the fields those call sites set;
`none` means the field is absent from the partial object and untouched by
`Object.assign`. -/
structure JobUpdates where
  lockedBy : Option (Option String) := none
  lockedAt : Option (Option Nat) := none
  startedAt : Option (Option Nat) := none
  completedAt : Option (Option Nat) := none
  totalRows : Option Nat := none
  processedRows : Option Nat := none
  successfulRows : Option Nat := none
  failedRows : Option Nat := none
  skippedRows : Option Nat := none
  errors : Option (List ImportError) := none
  errorMessage : Option (Option String) := none
deriving Repr, DecidableEq

/-- `Object.assign(job, additionalUpdates)`: fields present in the partial
object overwrite the record's fields. -/
def applyUpdates (j : ImportJob) (u : JobUpdates) : ImportJob :=
  { j with
    lockedBy := u.lockedBy.getD j.lockedBy
    lockedAt := u.lockedAt.getD j.lockedAt
    startedAt := u.startedAt.getD j.startedAt
    completedAt := u.completedAt.getD j.completedAt
    totalRows := u.totalRows.getD j.totalRows
    processedRows := u.processedRows.getD j.processedRows
    successfulRows := u.successfulRows.getD j.successfulRows
    failedRows := u.failedRows.getD j.failedRows
    skippedRows := u.skippedRows.getD j.skippedRows
    errors := u.errors.getD j.errors
    errorMessage := u.errorMessage.getD j.errorMessage }

/-- Version bump performed by TypeORM on `save` for an entity with a
`@VersionColumn` (optimistic concurrency counter). -/
def saveBump (j : ImportJob) : ImportJob :=
  { j with version := j.version + 1 }

/-- `SELECT ... WHERE job.id = :id` on the job table. -/
def findJob (db : List ImportJob) (jobId : String) : Option ImportJob :=
  db.find? (fun j => j.id = jobId)

/-- Persisting a saved row: the record with matching id is replaced, all other
rows are untouched. -/
def replaceJob (db : List ImportJob) (jobId : String) (j' : ImportJob) : List ImportJob :=
  db.map (fun j => if j.id = jobId then j' else j)

/-- Result of `atomicStatusTransition` (`{ success, job?, reason? }`). -/
inductive TransitionResult where
  | success (job : ImportJob)
  | failure (reason : String)
deriving Repr, DecidableEq

/-- Atomic status transition (`atomicStatusTransition` in the source): inside a
SERIALIZABLE transaction, select the row `FOR UPDATE`; missing row or status
mismatch rolls back (store unchanged) and reports the reason; otherwise the
status is set, the partial updates are assigned and the save bumps the
version. -/
def atomicStatusTransition (db : List ImportJob) (jobId : String)
    (fromStatus toStatus : JobStatus) (updates : JobUpdates) :
    TransitionResult × List ImportJob :=
  match findJob db jobId with
  | none => (.failure "Job not found", db)
  | some job =>
    if job.status ≠ fromStatus then
      (.failure ("Job status is " ++ job.status.str ++ ", expected " ++ fromStatus.str), db)
    else
      let j' := saveBump (applyUpdates { job with status := toStatus } updates)
      (.success j', replaceJob db jobId j')

/-- Finalize (`finalizeJob` in the source): select the row `FOR UPDATE`;
a missing row throws; a row whose status is not PROCESSING is left untouched
(rollback, warning only); otherwise the terminal status and the partial
updates are applied and the save bumps the version.  Note the source checks
only the status: `lockedBy` is not consulted and the finalizing node is not
even a parameter. -/
def finalizeJob (db : List ImportJob) (jobId : String)
    (status : JobStatus) (updates : JobUpdates) :
    Except String (List ImportJob) :=
  match findJob db jobId with
  | none => .error ("Job " ++ jobId ++ " not found during finalization")
  | some job =>
    if job.status ≠ JobStatus.processing then
      .ok db
    else
      .ok (replaceJob db jobId (saveBump (applyUpdates { job with status := status } updates)))

/-! JavaScript string primitives, modelled over `List Char`. -/

/-- JS `String.prototype.split` with a one-character separator: groups of
characters between occurrences of `sep`; always at least one (possibly empty)
part. -/
def splitOnChar (sep : Char) : List Char → List (List Char)
  | [] => [[]]
  | c :: cs =>
    match splitOnChar sep cs with
    | [] => [[c]]
    | g :: gs => if c = sep then [] :: g :: gs else (c :: g) :: gs

/-- Whitespace recognised by JS `trim` (the forms occurring in the inputs). -/
def isJsWs (c : Char) : Bool :=
  c = ' ' ∨ c = '\t' ∨ c = '\n' ∨ c = '\r'

/-- JS `String.prototype.trim`. -/
def trimChars (cs : List Char) : List Char :=
  ((cs.dropWhile isJsWs).reverse.dropWhile isJsWs).reverse

/-- JS `String.prototype.toLowerCase` (ASCII, as used on extensions). -/
def lowerChars (cs : List Char) : List Char :=
  cs.map Char.toLower

/-- The three-way extension match of `detectFormat`: `csv` maps to csv,
`ndjson`/`jsonl` map to ndjson, anything else maps to json. -/
def formatOfExt (ext : String) : String :=
  if ext = "csv" then "csv"
  else if ext = "ndjson" ∨ ext = "jsonl" then "ndjson"
  else "json"

/-- Format auto-detection (`detectFormat` in the source):
`filename.split('.').pop()?.toLowerCase()` followed by the three-way match.
Note `split('.')` on a dot-free filename yields the whole filename as its
only element, so `pop` then returns the whole filename. -/
def detectFormat (filename : String) : String :=
  formatOfExt (String.mk (lowerChars ((splitOnChar '.' filename.toList).getLastD [])))

/-! Distributed lock (`DistributedLockService`).  The Redis keyspace is a
finite map from lock keys to tokens.  Lease expiry (`PX`) and the renewal
timer are not modelled: the claims under scrutiny concern only the mutual
exclusion of the atomic `SET NX`, which is independent of the clock. -/

/-- Redis keyspace: lock key to stored token. -/
abbrev RedisKV := List (String × String)

/-- Redis `SET key value NX PX ttl`: stores the value only when the key is
absent; returns whether the store happened (`'OK'` vs `null`). -/
def redisSetNxPx (kv : RedisKV) (key value : String) : Bool × RedisKV :=
  match kv.lookup key with
  | some _ => (false, kv)
  | none => (true, (key, value) :: kv)

/-- An acquired lock (`Lock` in the source, minus the expiry timestamp). -/
structure RedisLock where
  key : String
  token : String
deriving Repr, DecidableEq

/-- Retry loop of `acquireLock`: attempts `retries + 1` atomic `SET NX` calls
(the source loop runs for `attempt = 0 .. retries`), sleeping between failed
attempts; in this serialized model the keyspace does not change between the
attempts of a single call. -/
def acquireAttempts (lockKey token : String) : Nat → RedisKV → Option RedisLock × RedisKV
  | 0, kv => (none, kv)
  | n + 1, kv =>
    let (stored, kv') := redisSetNxPx kv lockKey token
    if stored then (some ⟨lockKey, token⟩, kv') else acquireAttempts lockKey token n kv'

/-- `acquireLock(resourceKey, options)`: prefixes the key with `lock:`, uses
the node-scoped random token, and runs the retry loop. -/
def acquireLock (kv : RedisKV) (resourceKey token : String) (retries : Nat) :
    Option RedisLock × RedisKV :=
  acquireAttempts ("lock:" ++ resourceKey) token (retries + 1) kv

/-- `releaseLock`: the Lua compare-and-delete — deletes the key only when the
stored token matches the caller's. -/
def releaseLock (kv : RedisKV) (lock : RedisLock) : Bool × RedisKV :=
  match kv.lookup lock.key with
  | some t =>
    if t = lock.token then (true, kv.filter (fun p => p.1 != lock.key)) else (false, kv)
  | none => (false, kv)

/-- Orchestration of one queue delivery (`processImport` in the source):
acquire the distributed lock with `retries = 0` (a missing lock means another
node is processing — skip); atomically transition PENDING → PROCESSING,
recording ownership; on a failed transition log and stop; otherwise execute
the pipeline (`executeImportProcessing`, abstracted here as a state
transformer `pipeline`, modelled in detail separately); the lock is always
released in the `finally` block.  Returns whether the pipeline ran, the
final keyspace and the final job table. -/
def processImport (pipeline : List ImportJob → ImportJob → List ImportJob)
    (kv : RedisKV) (db : List ImportJob) (nodeId token jobId : String) (now : Nat) :
    Bool × RedisKV × List ImportJob :=
  let acq := acquireLock kv ("import-job:" ++ jobId) token 0
  match acq.1 with
  | none => (false, acq.2, db)
  | some lock =>
    let tr := atomicStatusTransition db jobId .pending .processing
      { lockedBy := some (some nodeId), lockedAt := some (some now),
        startedAt := some (some now) }
    match tr.1 with
    | .failure _ => (false, (releaseLock acq.2 lock).2, tr.2)
    | .success job =>
      let db2 := pipeline tr.2 job
      (true, (releaseLock acq.2 lock).2, db2)

/-! Import-job creation (`createImportFromFile` / `createImportFromUrl`). -/

/-- A queued `ImportJobData` payload. -/
structure QueueJob where
  jobId : String
  resourceType : ResourceType
  filePath : Option String := none
  fileUrl : Option String := none
  fileFormat : String
  idempotencyKey : Option String := none
deriving Repr, DecidableEq

/-- The externally visible state touched by import creation: the job table,
the object store (key to content) and the BullMQ queue. -/
structure SysState where
  importJobs : List ImportJob
  storage : List (String × String)
  queue : List QueueJob
deriving Repr, DecidableEq

/-- `findByIdempotencyKey`: lookup of the unique import job carrying the key. -/
def findByIdempotencyKey (jobs : List ImportJob) (key : String) : Option ImportJob :=
  jobs.find? (fun j => j.idempotencyKey = some key)

/-- A multipart upload (`Express.Multer.File`), reduced to the fields the
service reads. -/
structure UploadedFile where
  originalname : String
  size : Nat
  buffer : String
deriving Repr, DecidableEq

/-- Storage key for an uploaded import file (`generateImportKey`); the date
segment and filename sanitization are dropped — they never feed back into a
modelled branch. -/
def generateImportKey (jobId fileName : String) : String :=
  "imports/" ++ jobId ++ "/" ++ fileName

/-- `createImportFromFile`: idempotency check first (an existing job for the
key is returned as-is); then format detection/validation, job creation
(insert, version 1), upload of the buffer, a second save recording the
storage key (version bump), and the queue enqueue. -/
def createImportFromFile (st : SysState) (file : UploadedFile)
    (resourceType : ResourceType) (dtoFormat : Option String)
    (idempotencyKey : Option String) (freshId : String) :
    Except String (ImportJob × SysState) :=
  let existing := match idempotencyKey with
    | some k => findByIdempotencyKey st.importJobs k
    | none => none
  match existing with
  | some j => .ok (j, st)
  | none =>
    let format := dtoFormat.getD (detectFormat file.originalname)
    if format ≠ "json" ∧ format ≠ "ndjson" ∧ format ≠ "csv" then
      .error ("Unsupported file format: " ++ format)
    else
      let job : ImportJob :=
        { id := freshId, idempotencyKey := idempotencyKey, resourceType := resourceType,
          status := .pending, fileName := some file.originalname,
          fileSize := some file.size, fileFormat := some format }
      let db1 := st.importJobs ++ [job]
      let storageKey := generateImportKey job.id file.originalname
      let storage1 := st.storage ++ [(storageKey, file.buffer)]
      let job1 := saveBump { job with fileUrl := some storageKey }
      let db2 := replaceJob db1 freshId job1
      let queue1 := st.queue ++
        [{ jobId := job.id, resourceType := resourceType, filePath := some storageKey,
           fileFormat := format, idempotencyKey := idempotencyKey }]
      .ok (job1, { importJobs := db2, storage := storage1, queue := queue1 })

/-- `createImportFromUrl`: idempotency check first; requires `fileUrl`;
format detection/validation; job creation (single save, no upload); queue
enqueue. -/
def createImportFromUrl (st : SysState) (resourceType : ResourceType)
    (fileUrl : Option String) (dtoFormat : Option String)
    (idempotencyKey : Option String) (freshId : String) :
    Except String (ImportJob × SysState) :=
  let existing := match idempotencyKey with
    | some k => findByIdempotencyKey st.importJobs k
    | none => none
  match existing with
  | some j => .ok (j, st)
  | none =>
    match fileUrl with
    | none => .error "fileUrl is required when not uploading a file"
    | some url =>
      let format := dtoFormat.getD (detectFormat url)
      if format ≠ "json" ∧ format ≠ "ndjson" ∧ format ≠ "csv" then
        .error ("Unsupported file format: " ++ format)
      else
        let job : ImportJob :=
          { id := freshId, idempotencyKey := idempotencyKey, resourceType := resourceType,
            status := .pending, fileUrl := some url, fileFormat := some format }
        let queue1 := st.queue ++
          [{ jobId := job.id, resourceType := resourceType, fileUrl := some url,
             fileFormat := format, idempotencyKey := idempotencyKey }]
        .ok (job, { importJobs := st.importJobs ++ [job], storage := st.storage,
                    queue := queue1 })

/-! JSON values and `JSON.parse`.  The decoders call the JS builtin
`JSON.parse` per line; it is modelled by a total recursive-descent parser
over `List Char` with a fuel argument for termination.  Numbers are kept as
their raw literal text (`Json.num`): no claim depends on numeric value
arithmetic, only on parse success/failure and structure. -/

/-- JSON value. -/
inductive Json where
  | null
  | bool (b : Bool)
  | num (raw : String)
  | str (s : String)
  | arr (elems : List Json)
  | obj (fields : List (String × Json))
deriving Repr

/-- Double-quote character (written via its code point to keep all parser
character comparisons uniform). -/
def dquoteCh : Char := Char.ofNat 34

/-- Backslash character. -/
def backslashCh : Char := Char.ofNat 92

/-- Opening curly brace character. -/
def lbraceCh : Char := Char.ofNat 123

/-- Closing curly brace character. -/
def rbraceCh : Char := Char.ofNat 125

/-- JSON insignificant whitespace. -/
def jsonWs (c : Char) : Bool :=
  c = ' ' || c = '\t' || c = '\n' || c = '\r'

/-- Value of a hexadecimal digit. -/
def hexVal (c : Char) : Option Nat :=
  if c.isDigit then some (c.toNat - 48)
  else if 'a' ≤ c ∧ c ≤ 'f' then some (c.toNat - 87)
  else if 'A' ≤ c ∧ c ≤ 'F' then some (c.toNat - 55)
  else none

/-- One escape sequence after a backslash inside a JSON string. -/
def parseEscape : List Char → Option (Char × List Char)
  | [] => none
  | c :: rest =>
    if c = dquoteCh ∨ c = backslashCh ∨ c = '/' then some (c, rest)
    else if c = 'b' then some (Char.ofNat 8, rest)
    else if c = 'f' then some (Char.ofNat 12, rest)
    else if c = 'n' then some ('\n', rest)
    else if c = 'r' then some ('\r', rest)
    else if c = 't' then some ('\t', rest)
    else if c = 'u' then
      match rest with
      | h1 :: h2 :: h3 :: h4 :: r =>
        match hexVal h1, hexVal h2, hexVal h3, hexVal h4 with
        | some a, some b, some c2, some d =>
          some (Char.ofNat (((a * 16 + b) * 16 + c2) * 16 + d), r)
        | _, _, _, _ => none
      | _ => none
    else none

/-- Body of a JSON string after the opening quote: content and remainder
after the closing quote. -/
def parseStringBody : Nat → List Char → Option (List Char × List Char)
  | 0, _ => none
  | fuel + 1, cs =>
    match cs with
    | [] => none
    | c :: rest =>
      if c = dquoteCh then some ([], rest)
      else if c = backslashCh then
        match parseEscape rest with
        | some (e, r) =>
          match parseStringBody fuel r with
          | some (content, r2) => some (e :: content, r2)
          | none => none
        | none => none
      else
        match parseStringBody fuel rest with
        | some (content, r2) => some (c :: content, r2)
        | none => none

/-- Longest digit run and the remainder. -/
def spanDigits (cs : List Char) : List Char × List Char :=
  (cs.takeWhile Char.isDigit, cs.dropWhile Char.isDigit)

/-- JSON number literal: sign, integer part, optional fraction, optional
exponent; returns the raw literal text and the remainder. -/
def parseNumber (cs : List Char) : Option (List Char × List Char) :=
  let signAndRest : List Char × List Char :=
    match cs with
    | '-' :: r => (['-'], r)
    | _ => ([], cs)
  let (ds, cs2) := spanDigits signAndRest.2
  if ds = [] then none
  else
    let fracAndRest : List Char × List Char :=
      match cs2 with
      | '.' :: r =>
        let (fd, r2) := spanDigits r
        if fd = [] then ([], cs2) else ('.' :: fd, r2)
      | _ => ([], cs2)
    let expAndRest : List Char × List Char :=
      match fracAndRest.2 with
      | e :: r =>
        if e = 'e' ∨ e = 'E' then
          let sgnAndRest : List Char × List Char :=
            match r with
            | s :: r2 => if s = '+' ∨ s = '-' then ([s], r2) else ([], r)
            | [] => ([], r)
          let (ed, r2) := spanDigits sgnAndRest.2
          if ed = [] then ([], fracAndRest.2) else (e :: (sgnAndRest.1 ++ ed), r2)
        else ([], fracAndRest.2)
      | [] => ([], fracAndRest.2)
    some (signAndRest.1 ++ ds ++ fracAndRest.1 ++ expAndRest.1, expAndRest.2)

mutual

/-- JSON value parser (fuel-indexed recursive descent). -/
def parseJsonVal : Nat → List Char → Option (Json × List Char)
  | 0, _ => none
  | fuel + 1, cs =>
    match cs.dropWhile jsonWs with
    | [] => none
    | 'n' :: 'u' :: 'l' :: 'l' :: r => some (.null, r)
    | 't' :: 'r' :: 'u' :: 'e' :: r => some (.bool true, r)
    | 'f' :: 'a' :: 'l' :: 's' :: 'e' :: r => some (.bool false, r)
    | c :: rest =>
      if c = dquoteCh then
        match parseStringBody (rest.length + 1) rest with
        | some (content, r) => some (.str (String.mk content), r)
        | none => none
      else if c = '[' then
        match rest.dropWhile jsonWs with
        | ']' :: r2 => some (.arr [], r2)
        | _ =>
          match parseJsonElems fuel rest with
          | some (vs, r2) => some (.arr vs, r2)
          | none => none
      else if c = lbraceCh then
        let r0 := rest.dropWhile jsonWs
        if r0.head? = some rbraceCh then some (.obj [], r0.tail)
        else
          match parseJsonFields fuel rest with
          | some (fs, r2) => some (.obj fs, r2)
          | none => none
      else if c = '-' ∨ c.isDigit then
        match parseNumber (c :: rest) with
        | some (lit, r) => some (.num (String.mk lit), r)
        | none => none
      else none

/-- Comma-separated array elements up to the closing bracket. -/
def parseJsonElems : Nat → List Char → Option (List Json × List Char)
  | 0, _ => none
  | fuel + 1, cs =>
    match parseJsonVal fuel cs with
    | some (v, r) =>
      match r.dropWhile jsonWs with
      | ',' :: r2 =>
        match parseJsonElems fuel r2 with
        | some (vs, r3) => some (v :: vs, r3)
        | none => none
      | ']' :: r2 => some ([v], r2)
      | _ => none
    | none => none

/-- Comma-separated object members up to the closing brace. -/
def parseJsonFields : Nat → List Char → Option (List (String × Json) × List Char)
  | 0, _ => none
  | fuel + 1, cs =>
    match cs.dropWhile jsonWs with
    | c :: rest =>
      if c = dquoteCh then
        match parseStringBody (rest.length + 1) rest with
        | some (key, r) =>
          match r.dropWhile jsonWs with
          | ':' :: r2 =>
            match parseJsonVal fuel r2 with
            | some (v, r3) =>
              match r3.dropWhile jsonWs with
              | ',' :: r4 =>
                match parseJsonFields fuel r4 with
                | some (fs, r5) => some ((String.mk key, v) :: fs, r5)
                | none => none
              | c5 :: r5 =>
                if c5 = rbraceCh then some ([(String.mk key, v)], r5) else none
              | [] => none
            | none => none
          | _ => none
        | none => none
      else none
    | [] => none

end

/-- `JSON.parse` on a whole string: a single value followed only by
whitespace; anything else throws (modelled as `none`). -/
def jsonParse (s : String) : Option Json :=
  match parseJsonVal (2 * s.length + 4) s.toList with
  | some (v, r) => if (r.dropWhile jsonWs).isEmpty then some v else none
  | none => none

/-! NDJSON decoding (`NdjsonParseTransform`) and the NDJSON import stream
(`processNDJSONStream`). -/

/-- One item produced by the NDJSON decoder: a parsed record or a per-line
parse error, both carrying the 1-based line number. -/
inductive NdjsonItem where
  | data (j : Json) (lineNumber : Nat)
  | parseError (message : String) (lineNumber : Nat)

/-- Whether an item is a parse error. -/
def NdjsonItem.isError : NdjsonItem → Bool
  | .parseError _ _ => true
  | .data _ _ => false

/-- Decode one trimmed non-empty line (`JSON.parse` in a try/catch).  The JS
exception text appended to the message is not reproduced; no claim reads it. -/
def ndjsonLineItem (n : Nat) (t : List Char) : NdjsonItem :=
  match jsonParse (String.mk t) with
  | some j => .data j n
  | none => .parseError ("Invalid JSON at line " ++ toString n) n

/-- `NdjsonParseTransform` applied to the whole input (one `_transform` call
plus `_flush`): split on `\n`; the final fragment is the buffer handled by
`_flush`; every earlier line bumps the line counter, blank lines (after
trimming) are skipped, others are JSON-decoded; the buffer is decoded only
when its trimmed text is non-empty, at line number `count-of-earlier-lines + 1`. -/
def ndjsonParseTransform (input : String) : List NdjsonItem :=
  let lines := splitOnChar '\n' input.toList
  let main := lines.dropLast
  let buffer := lines.getLastD []
  let mainItems := main.enum.filterMap (fun p =>
    let t := trimChars p.2
    if t = [] then none else some (ndjsonLineItem (p.1 + 1) t))
  let flushItems :=
    let t := trimChars buffer
    if t = [] then [] else [ndjsonLineItem (main.length + 1) t]
  mainItems ++ flushItems

/-- Fuel-indexed batching loop. -/
def chunksGo (b : Nat) : Nat → List α → List (List α)
  | _, [] => []
  | 0, l => [l]
  | fuel + 1, l => l.take b :: chunksGo b fuel (l.drop b)

/-- `BatchTransform`: fixed-size batches, final partial batch flushed at end
(the configured batch size is positive; the fuel fallback for `b = 0` is
never exercised). -/
def batchTransform (b : Nat) (l : List α) : List (List α) :=
  chunksGo b l.length l

/-- Per-batch outcome (`ImportBatchResult`). -/
structure BatchResult where
  successful : Nat := 0
  failed : Nat := 0
  skipped : Nat := 0
  errors : List ImportError := []
deriving Repr, DecidableEq

/-- Accumulated stream counters and error list of one import run. -/
structure StreamResult where
  totalRows : Nat := 0
  processedRows : Nat := 0
  successfulRows : Nat := 0
  failedRows : Nat := 0
  skippedRows : Nat := 0
  errors : List ImportError := []
deriving Repr, DecidableEq

/-- Cap on stored errors (`this.maxErrors = 100`). -/
def maxErrors : Nat := 100

/-- The separation loop of `processNDJSONStream` over one typed batch: a
parse-error item increments `failedRows` and is appended to the error list
only while the list is below the cap; a data item joins the valid records. -/
def separateItems (cap : Nat) : List NdjsonItem → StreamResult → StreamResult × List (Json × Nat)
  | [], acc => (acc, [])
  | item :: rest, acc =>
    match item with
    | .parseError msg n =>
      separateItems cap rest
        { acc with
          failedRows := acc.failedRows + 1
          errors :=
            if acc.errors.length < cap then acc.errors ++ [⟨n, none, msg, none⟩]
            else acc.errors }
    | .data j n =>
      ((separateItems cap rest acc).1, (j, n) :: (separateItems cap rest acc).2)

/-- Body of the `for await (const batch of batchTransform)` loop in
`processNDJSONStream`: count the batch into `totalRows`, separate parse
errors from valid records, and (when any valid records remain) process them,
folding the batch result into the counters and the capped error list. -/
def ndjsonBatchStep (cap : Nat) (pb : List (Json × Nat) → BatchResult)
    (acc : StreamResult) (batch : List NdjsonItem) : StreamResult :=
  let acc1 := { acc with totalRows := acc.totalRows + batch.length }
  let sep := separateItems cap batch acc1
  let acc2 := sep.1
  let valid := sep.2
  if valid.isEmpty then acc2
  else
    let r := pb valid
    { acc2 with
      processedRows := acc2.processedRows + valid.length
      successfulRows := acc2.successfulRows + r.successful
      failedRows := acc2.failedRows + r.failed
      skippedRows := acc2.skippedRows + r.skipped
      errors :=
        if acc2.errors.length < cap then
          acc2.errors ++ r.errors.take (cap - acc2.errors.length)
        else acc2.errors }

/-- `processNDJSONStream`: decode, batch, and fold the loop body over all
batches.  `pb` abstracts `processBatchWithLineNumbers` (validation + upsert
against the database); the periodic `updateJobProgress` flush persists the
intermediate values of these same accumulators every 10 batches and is
otherwise effect-free. -/
def processNDJSONStream (pb : List (Json × Nat) → BatchResult)
    (batchSize cap : Nat) (input : String) : StreamResult :=
  (batchTransform batchSize (ndjsonParseTransform input)).foldl (ndjsonBatchStep cap pb) {}

/-- A field-level validation error (`{ field, message, value? }`). -/
structure FieldError where
  field : String
  message : String
  value : Option String := none
deriving Repr, DecidableEq

/-- Error-collection loop over the invalid records of one batch
(`processBatchWithLineNumbers`): each invalid record counts one failure; its
field errors are appended (all of them) only while the batch error list is
below the cap. -/
def invalidRecordsFold (cap : Nat) :
    List (Json × Nat × List FieldError) → Nat × List ImportError → Nat × List ImportError
  | [], acc => acc
  | (_, n, errs) :: rest, (failed, errors) =>
    invalidRecordsFold cap rest
      (failed + 1,
       if errors.length < cap then
         errors ++ errs.map (fun e => ⟨n, some e.field, e.message, e.value⟩)
       else errors)

/-- `processBatchWithLineNumbers`: validate every record (`validate`
abstracts the DTO + resource-specific checks, returning the field errors, an
empty list meaning valid); invalid records are counted failed with their
errors collected under the cap; the valid records go to the upsert engine
(`upsert` abstracts `upsertRecords`, the per-row savepoint loop against the
database) whose counters and errors are folded in (the upsert errors are
appended without a cap here — the stream-level fold caps them). -/
def processBatchWithLineNumbers (validate : Json → List FieldError)
    (upsert : List (Json × Nat) → BatchResult) (cap : Nat)
    (records : List (Json × Nat)) : BatchResult :=
  let validated := records.map (fun p => (p.1, p.2, validate p.1))
  let invalid := validated.filter (fun v => !v.2.2.isEmpty)
  let valid := validated.filter (fun v => v.2.2.isEmpty)
  let base := invalidRecordsFold cap invalid (0, [])
  if valid.isEmpty then
    { successful := 0, failed := base.1, skipped := 0, errors := base.2 }
  else
    let u := upsert (valid.map (fun v => (v.1, v.2.1)))
    { successful := u.successful, failed := base.1 + u.failed, skipped := u.skipped,
      errors := base.2 ++ u.errors }

/-- The success-path finalize updates of `executeImportProcessing`: counters,
the error list truncated to the first `maxErrors` entries, completion
timestamp, and cleared ownership. -/
def importFinalizeUpdates (r : StreamResult) (now : Nat) : JobUpdates :=
  { totalRows := some r.totalRows, processedRows := some r.processedRows,
    successfulRows := some r.successfulRows, failedRows := some r.failedRows,
    skippedRows := some r.skippedRows,
    errors := some (r.errors.take maxErrors),
    completedAt := some (some now), lockedBy := some none, lockedAt := some none }

/-! CSV decoding (`processCSVStream`'s `csv-parse` invocation with
`columns: true, skip_empty_lines: true, trim: true, cast: true,
cast_date: false`). -/

/-- A decoded CSV cell: a raw string, or a number kept as its literal text
(the `cast: true` conversion of numeric-looking values). -/
inductive Cell where
  | str (s : String)
  | num (raw : String)
deriving Repr, DecidableEq

/-- Mantissa of a JS-numeric string: `digits+ ('.' digits*)?` or
`'.' digits+`; returns the remainder when well-formed. -/
def csvMantissa (cs : List Char) : Option (List Char) :=
  match cs with
  | '.' :: r =>
    let (fd, r2) := spanDigits r
    if fd = [] then none else some r2
  | _ =>
    let (ds, r1) := spanDigits cs
    if ds = [] then none
    else
      match r1 with
      | '.' :: r2 => some (spanDigits r2).2
      | _ => some r1

/-- Whether `cast: true` converts this (already trimmed) value to a number:
optional sign, mantissa, optional exponent — the strings JS parses as a
finite float. -/
def isCsvNumeric (cs : List Char) : Bool :=
  let cs1 := match cs with
    | c :: r => if c = '+' ∨ c = '-' then r else cs
    | [] => cs
  match csvMantissa cs1 with
  | none => false
  | some r =>
    match r with
    | [] => true
    | e :: r2 =>
      if e = 'e' ∨ e = 'E' then
        let r3 := match r2 with
          | s :: rr => if s = '+' ∨ s = '-' then rr else r2
          | [] => r2
        let (ed, r4) := spanDigits r3
        !ed.isEmpty && r4.isEmpty
      else false

/-- The `cast: true` conversion applied to one field value. -/
def castCellValue (s : String) : Cell :=
  if isCsvNumeric s.toList then .num s else .str s

/-- Scan a quoted field body: content up to the closing quote, with `""`
unescaped to a single quote. -/
def scanQuoted : Nat → List Char → List Char × List Char
  | 0, cs => ([], cs)
  | fuel + 1, cs =>
    match cs with
    | [] => ([], [])
    | c :: rest =>
      if c = dquoteCh then
        match rest with
        | c2 :: rest2 =>
          if c2 = dquoteCh then
            let (content, r) := scanQuoted fuel rest2
            (dquoteCh :: content, r)
          else ([], rest)
        | [] => ([], [])
      else
        let (content, r) := scanQuoted fuel rest
        (c :: content, r)

/-- Split one CSV record into fields: a field is either quoted (content taken
verbatim, surrounding whitespace outside the quotes discarded) or unquoted
(taken up to the delimiter and trimmed, per `trim: true`). -/
def parseCsvFields : Nat → List Char → List String
  | 0, cs => [String.mk (trimChars cs)]
  | fuel + 1, cs =>
    let csl := cs.dropWhile (fun c => c = ' ' ∨ c = '\t')
    let fieldRest : String × List Char :=
      if csl.head? = some dquoteCh then
        let (content, r) := scanQuoted (csl.length + 1) csl.tail
        (String.mk content, r.dropWhile (fun c => c = ' ' ∨ c = '\t'))
      else
        (String.mk (trimChars (cs.takeWhile (fun c => c ≠ ','))),
         cs.dropWhile (fun c => c ≠ ','))
    match fieldRest.2 with
    | ',' :: r => fieldRest.1 :: parseCsvFields fuel r
    | _ => [fieldRest.1]

/-- Parse one CSV record. -/
def parseCsvLine (cs : List Char) : List String :=
  parseCsvFields (cs.length + 1) cs

/-- Records of the CSV input: split into lines (tolerating `\r\n`), skip
empty lines (`skip_empty_lines: true`), and split each remaining line into
fields. -/
def csvRecords (input : String) : List (List String) :=
  let lines := (splitOnChar '\n' input.toList).map (fun l =>
    match l.getLast? with
    | some c => if c = '\r' then l.dropLast else l
    | none => l)
  (lines.filter (fun l => !l.isEmpty)).map parseCsvLine

/-- The decoder as configured in `processCSVStream`: the first record is the
header (`columns: true`), each later record becomes the list of
(header-name, value) pairs, and every value goes through the `cast: true`
conversion. -/
def csvDecode (input : String) : List (List (String × Cell)) :=
  match csvRecords input with
  | [] => []
  | header :: rows => rows.map (fun r => header.zip (r.map castCellValue))

/-- CSV decoding as the specification words it (claim C7): identical to
`csvDecode` except that every value stays a raw (trimmed) string — no
coercion beyond trimming.  Defined for comparison against the source
decoder. -/
def csvDecodeRawStrings (input : String) : List (List (String × Cell)) :=
  match csvRecords input with
  | [] => []
  | header :: rows => rows.map (fun r => header.zip (r.map Cell.str))

/-- Re-apply the `cast: true` conversion to a string cell. -/
def castKV (kv : String × Cell) : String × Cell :=
  match kv.2 with
  | .str s => (kv.1, castCellValue s)
  | .num r => (kv.1, .num r)

/-- Re-apply the `cast: true` conversion to every string cell of decoded
rows. -/
def castCells (rows : List (List (String × Cell))) : List (List (String × Cell)) :=
  rows.map (fun row => row.map castKV)

/-! Export query pipeline for the users resource (`applyCommonFilters`,
`fetchUsers`, `countRecords`, `streamRecords`).  A query is modelled the way
TypeORM executes it: each `andWhere` contributes a condition text referencing
a named placeholder plus a parameter object; at query build time every
placeholder is resolved against the merged parameter map — an unresolved
placeholder is an error, independent of the table contents. -/

/-- A user row, reduced to the fields the export query reads. -/
structure UserRow where
  id : String
  email : String := ""
  name : String := ""
  role : String := ""
  active : Bool := true
  createdAt : Nat
  updatedAt : Nat := 0
deriving Repr, DecidableEq

/-- `ExportFiltersDto` (timestamps as `Nat`). -/
structure ExportFilters where
  ids : Option (List String) := none
  createdAfter : Option Nat := none
  createdBefore : Option Nat := none
  updatedAfter : Option Nat := none
  updatedBefore : Option Nat := none
  active : Option Bool := none
deriving Repr, DecidableEq

/-- A bound query-parameter value. -/
inductive ParamVal where
  | nat (n : Nat)
  | bool (b : Bool)
  | strList (l : List String)
deriving Repr, DecidableEq

/-- One `andWhere` contribution: the placeholder its condition references,
the parameter object passed alongside, and the comparison the condition
performs once the placeholder is bound. -/
structure QueryClause where
  placeholder : String
  params : List (String × ParamVal)
  test : ParamVal → UserRow → Bool

/-- `applyCommonFilters`: one clause per present filter.  Note the
`createdAfter` clause passes its value under the parameter name `createdAt`
while its condition references `:createdAfter` (exactly as the source does);
the other three range filters use matching names. -/
def applyCommonFilters (filters : ExportFilters) : List QueryClause :=
  (match filters.ids with
   | some ids =>
     if ids.length > 0 then
       [⟨"ids", [("ids", .strList ids)],
         fun v u => match v with | .strList l => l.contains u.id | _ => false⟩]
     else []
   | none => []) ++
  (match filters.createdAfter with
   | some t =>
     [⟨"createdAfter", [("createdAt", .nat t)],
       fun v u => match v with | .nat n => n ≤ u.createdAt | _ => false⟩]
   | none => []) ++
  (match filters.createdBefore with
   | some t =>
     [⟨"createdBefore", [("createdBefore", .nat t)],
       fun v u => match v with | .nat n => u.createdAt ≤ n | _ => false⟩]
   | none => []) ++
  (match filters.updatedAfter with
   | some t =>
     [⟨"updatedAfter", [("updatedAfter", .nat t)],
       fun v u => match v with | .nat n => n ≤ u.updatedAt | _ => false⟩]
   | none => []) ++
  (match filters.updatedBefore with
   | some t =>
     [⟨"updatedBefore", [("updatedBefore", .nat t)],
       fun v u => match v with | .nat n => u.updatedAt ≤ n | _ => false⟩]
   | none => [])

/-- The full clause list of the users query: common filters plus the
resource-specific `active` filter (identical in `fetchUsers` and
`countRecords`). -/
def usersClauses (filters : ExportFilters) : List QueryClause :=
  applyCommonFilters filters ++
  (match filters.active with
   | some a =>
     [⟨"active", [("active", .bool a)],
       fun v u => match v with | .bool b => u.active = b | _ => false⟩]
   | none => [])

/-- Resolve every clause's placeholder against the merged parameter map and
conjoin the comparisons; an unresolved placeholder fails the whole query. -/
def resolveClauses (allParams : List (String × ParamVal)) :
    List QueryClause → Except String (UserRow → Bool)
  | [] => .ok (fun _ => true)
  | c :: rest =>
    match allParams.lookup c.placeholder with
    | none => .error ("Parameter " ++ c.placeholder ++ " was not found")
    | some v =>
      match resolveClauses allParams rest with
      | .ok p => .ok (fun u => c.test v u && p u)
      | .error e => .error e

/-- WHERE predicate of a clause list. -/
def buildPredicate (cs : List QueryClause) : Except String (UserRow → Bool) :=
  resolveClauses ((cs.map (fun c => c.params)).flatten) cs

/-- `ORDER BY user.createdAt ASC` — the single ordering key of `fetchUsers`. -/
def userCreatedLe (a b : UserRow) : Prop :=
  a.createdAt ≤ b.createdAt

instance : DecidableRel userCreatedLe := fun a b => Nat.decLe a.createdAt b.createdAt

instance : IsTotal UserRow userCreatedLe := ⟨fun a b => Nat.le_total a.createdAt b.createdAt⟩

instance : IsTrans UserRow userCreatedLe := ⟨fun _ _ _ h1 h2 => Nat.le_trans h1 h2⟩

/-- `fetchUsers`: filter, order by `createdAt` ascending only (ties are left
in table order — one behaviour permitted by the single-key ORDER BY), then
`skip`/`take`. -/
def fetchUsers (table : List UserRow) (filters : ExportFilters)
    (offset limit : Nat) : Except String (List UserRow) :=
  match buildPredicate (usersClauses filters) with
  | .error e => .error e
  | .ok p => .ok ((((table.filter p).insertionSort userCreatedLe).drop offset).take limit)

/-- `countRecords` for users: `getCount` over the same clause construction. -/
def countUsers (table : List UserRow) (filters : ExportFilters) : Except String Nat :=
  match buildPredicate (usersClauses filters) with
  | .error e => .error e
  | .ok p => .ok (table.filter p).length

/-- The `while (hasMore)` pagination loop of `streamRecords`: fetch a page at
the current offset, stop on an empty page, emit it, and continue while the
page is full. -/
def streamRecordsGo (sorted : List UserRow) (b : Nat) : Nat → Nat → List UserRow
  | 0, _ => []
  | fuel + 1, offset =>
    let page := (sorted.drop offset).take b
    if page.isEmpty then []
    else page ++ (if page.length = b then streamRecordsGo sorted b fuel (offset + page.length) else [])

/-- `streamRecords` for users: all rows emitted by the pagination loop over
`fetchUsers` pages of size `b`. -/
def streamUsers (table : List UserRow) (filters : ExportFilters) (b : Nat) :
    Except String (List UserRow) :=
  match buildPredicate (usersClauses filters) with
  | .error e => .error e
  | .ok p =>
    let sorted := (table.filter p).insertionSort userCreatedLe
    .ok (streamRecordsGo sorted b (sorted.length + 1) 0)

/-! Specification-side definitions used to compare code behaviour against
the claims, and concrete fixtures used by witnesses and counterexamples. -/

deriving instance DecidableEq for Except

/-- Dot-free suffix of a character list after its last `sep`, the whole list
when it contains no `sep` (the corrected reading of "filename extension" for
claim C10). -/
def lastSeg (sep : Char) : List Char → List Char
  | [] => []
  | c :: cs => if c = sep ∨ sep ∈ cs then lastSeg sep cs else c :: cs

/-- Format detection as claim C10 words it: a real extension (suffix after a
dot) of `csv` / `ndjson` / `jsonl` selects the format; any other extension
— including a filename with no dot at all — yields json. -/
def claimDetectFormat (filename : String) : String :=
  if '.' ∈ filename.toList then
    formatOfExt (String.mk (lowerChars (lastSeg '.' filename.toList)))
  else "json"

/-- Sum of the three outcome counters of a stream result. -/
def sumSFS (r : StreamResult) : Nat :=
  r.successfulRows + r.failedRows + r.skippedRows

/-- The five persisted counters of a stream result. -/
def counters (r : StreamResult) : Nat × Nat × Nat × Nat × Nat :=
  (r.totalRows, r.processedRows, r.successfulRows, r.failedRows, r.skippedRows)

/-- Lexicographic character-list comparison (the ascending id order on UUID
strings the claim's tie-break refers to). -/
def charListLeB : List Char → List Char → Bool
  | [], _ => true
  | _ :: _, [] => false
  | a :: as, b :: bs => if a < b then true else if b < a then false else charListLeB as bs

/-- Ascending id order on the UUID strings. -/
def idLe (a b : String) : Prop :=
  charListLeB a.toList b.toList = true

instance : DecidableRel idLe := fun a b => instDecidableEqBool (charListLeB a.toList b.toList) true

/-- The stable ordering claim C8 asserts for exported rows: ascending
`created_at` with ties broken by ascending id. -/
def claimExportOrder (a b : UserRow) : Prop :=
  a.createdAt < b.createdAt ∨ (a.createdAt = b.createdAt ∧ idLe a.id b.id)

instance : DecidableRel claimExportOrder := fun a b => by
  unfold claimExportOrder; infer_instance

/-- Batch processor used in concrete runs: every record passes validation and
every upsert succeeds. -/
def pbAllValid : List (Json × Nat) → BatchResult :=
  processBatchWithLineNumbers (fun _ => []) (fun rs => { successful := rs.length }) maxErrors

/-- A pending users import job. -/
def jobPending : ImportJob :=
  { id := "j1", resourceType := .users, status := .pending }

/-- A processing job locked by node-b. -/
def jobLockedByOther : ImportJob :=
  { id := "j2", resourceType := .users, status := .processing,
    lockedBy := some "node-b", lockedAt := some 50, startedAt := some 50, version := 2 }

/-- Job table containing only the pending job. -/
def dbPending : List ImportJob := [jobPending]

/-- Job table containing only the job locked by node-b. -/
def dbLockedByOther : List ImportJob := [jobLockedByOther]

/-- Updates passed by the orchestrator when entering PROCESSING. -/
def updStart : JobUpdates :=
  { lockedBy := some (some "node-a"), lockedAt := some (some 10), startedAt := some (some 10) }

/-- Updates passed by the orchestrator on a failure finalize. -/
def updFinalFail : JobUpdates :=
  { completedAt := some (some 100), lockedBy := some none, lockedAt := some none,
    errorMessage := some (some "boom") }

/-- A completed import job carrying idempotency key k1. -/
def jobWithKey : ImportJob :=
  { id := "j9", idempotencyKey := some "k1", resourceType := .users, status := .completed,
    fileName := some "users.csv", fileFormat := some "csv", totalRows := 4,
    processedRows := 4, successfulRows := 2, failedRows := 2, version := 5 }

/-- System state already holding the job with key k1, one stored object and
one queued delivery. -/
def stWithKey : SysState :=
  { importJobs := [jobWithKey],
    storage := [("imports/j9/users.csv", "blob")],
    queue := [{ jobId := "j9", resourceType := .users, filePath := some "imports/j9/users.csv",
                fileFormat := "csv", idempotencyKey := some "k1" }] }

/-- An upload fixture. -/
def fileFixture : UploadedFile :=
  { originalname := "users.csv", size := 64, buffer := "email,name\n" }

/-- A pipeline stand-in for `processImport` runs: finalizes the job as
completed. -/
def pipelineFixture : List ImportJob → ImportJob → List ImportJob :=
  fun db job => (finalizeJob db job.id .completed updFinalFail).toOption.getD db

/-- Two users with identical `createdAt` whose table order descends by id,
plus an earlier third user. -/
def userRowB : UserRow := { id := "user-b", createdAt := 7 }

/-- The tied row with the smaller id, stored after `userRowB`. -/
def userRowA : UserRow := { id := "user-a", createdAt := 7 }

/-- Users table with the tie in descending-id order. -/
def usersTieTable : List UserRow := [userRowB, userRowA]

/-! Theorems settling the claims. -/

/-- C1: `transition(job_id, from, to, updates)` returns the "Job not found"
error and leaves the job table unchanged when the job does not exist;
returns the "status is X, expected Y" error and leaves the table unchanged
when the current status differs from `from`; and otherwise returns the job
with status set to `to`, the updates applied and the version bumped, the
table updated only at that job. -/
theorem claim1_atomic_transition (db : List ImportJob) (jobId : String)
    (fromStatus toStatus : JobStatus) (updates : JobUpdates) :
    (findJob db jobId = none →
      atomicStatusTransition db jobId fromStatus toStatus updates =
        (.failure "Job not found", db)) ∧
    (∀ j, findJob db jobId = some j → j.status ≠ fromStatus →
      atomicStatusTransition db jobId fromStatus toStatus updates =
        (.failure ("Job status is " ++ j.status.str ++ ", expected " ++ fromStatus.str), db)) ∧
    (∀ j, findJob db jobId = some j → j.status = fromStatus →
      atomicStatusTransition db jobId fromStatus toStatus updates =
        (.success (saveBump (applyUpdates { j with status := toStatus } updates)),
         replaceJob db jobId (saveBump (applyUpdates { j with status := toStatus } updates))) ∧
      (saveBump (applyUpdates { j with status := toStatus } updates)).status = toStatus ∧
      (saveBump (applyUpdates { j with status := toStatus } updates)).version = j.version + 1) := by
  refine ⟨fun h => ?_, fun j hj hne => ?_, fun j hj he => ?_⟩
  · simp [atomicStatusTransition, h]
  · simp [atomicStatusTransition, hj, hne]
  · refine ⟨?_, ?_, ?_⟩ <;> simp [atomicStatusTransition, hj, he, saveBump, applyUpdates]

/-- Witness for C1: the successful transition branch evaluated on the
concrete pending job. -/
theorem claim1_atomic_transition_witness :
    atomicStatusTransition dbPending "j1" .pending .processing updStart =
      (.success (saveBump (applyUpdates { jobPending with status := .processing } updStart)),
       replaceJob dbPending "j1"
         (saveBump (applyUpdates { jobPending with status := .processing } updStart))) ∧
    findJob dbPending "j1" = some jobPending ∧ jobPending.status = .pending := by
  have h := (claim1_atomic_transition dbPending "j1" .pending .processing updStart).2.2
    jobPending (by decide) rfl
  exact ⟨h.1, by decide, rfl⟩

/-- C3 counterexample: a PROCESSING job whose `locked_by` is node-b — hence
locked by a node other than whichever node finalizes (the source's
`finalizeJob` takes no node identity at all) — is still finalized: the
record changes, so the claimed silent no-op on foreign `locked_by` does not
hold. -/
theorem claim3_finalize_counterexample :
    jobLockedByOther.status = .processing ∧
    jobLockedByOther.lockedBy = some "node-b" ∧
    finalizeJob dbLockedByOther "j2" .failed updFinalFail ≠ .ok dbLockedByOther := by
  decide

/-- C3 amended: finalize is a silent no-op exactly when the current status is
not PROCESSING; `locked_by` is never consulted (the finalizing node is not a
parameter).  A PROCESSING job receives the terminal status plus the updates
(which, as passed by the callers, null out `locked_by`/`locked_at`) and a
version bump; a missing job is an error, not a no-op. -/
theorem claim3_finalize_amended (db : List ImportJob) (jobId : String)
    (status : JobStatus) (updates : JobUpdates) :
    (∀ j, findJob db jobId = some j → j.status ≠ .processing →
      finalizeJob db jobId status updates = .ok db) ∧
    (∀ j, findJob db jobId = some j → j.status = .processing →
      finalizeJob db jobId status updates =
        .ok (replaceJob db jobId (saveBump (applyUpdates { j with status := status } updates)))) ∧
    (findJob db jobId = none →
      finalizeJob db jobId status updates =
        .error ("Job " ++ jobId ++ " not found during finalization")) := by
  refine ⟨fun j hj hne => ?_, fun j hj he => ?_, fun h => ?_⟩ <;>
    simp [finalizeJob, *]

/-- Witness for C3 amended: the apply branch on the locked processing job
and the no-op branch on a completed job. -/
theorem claim3_finalize_amended_witness :
    finalizeJob dbLockedByOther "j2" .failed updFinalFail =
      .ok (replaceJob dbLockedByOther "j2"
        (saveBump (applyUpdates { jobLockedByOther with status := .failed } updFinalFail))) ∧
    finalizeJob [jobWithKey] "j9" .completed updFinalFail = .ok [jobWithKey] := by
  exact ⟨(claim3_finalize_amended dbLockedByOther "j2" .failed updFinalFail).2.1
           jobLockedByOther (by decide) rfl,
         (claim3_finalize_amended [jobWithKey] "j9" .completed updFinalFail).1
           jobWithKey (by decide) (by decide)⟩

/-- C5: when an import job already exists for the supplied idempotency key,
both creation paths (file upload and URL) return that job and leave the job
table, the object store and the queue exactly as they were — no record
creation, no upload, no enqueue. -/
theorem claim5_idempotent_creation (st : SysState) (file : UploadedFile)
    (rt : ResourceType) (fmt : Option String) (fileUrl : Option String)
    (freshId k : String) (j : ImportJob)
    (h : findByIdempotencyKey st.importJobs k = some j) :
    createImportFromFile st file rt fmt (some k) freshId = .ok (j, st) ∧
    createImportFromUrl st rt fileUrl fmt (some k) freshId = .ok (j, st) := by
  constructor <;> simp [createImportFromFile, createImportFromUrl, h]

/-- Witness for C5 on the concrete state already holding key k1. -/
theorem claim5_idempotent_creation_witness :
    createImportFromFile stWithKey fileFixture .users none (some "k1") "newid" =
      .ok (jobWithKey, stWithKey) ∧
    createImportFromUrl stWithKey .users (some "http://x/u.ndjson") none (some "k1") "newid" =
      .ok (jobWithKey, stWithKey) :=
  claim5_idempotent_creation stWithKey fileFixture .users none (some "http://x/u.ndjson")
    "newid" "k1" jobWithKey (by decide)

/-- C9: the `created_after` filter is broken — its value is bound under the
parameter name `createdAt` while the SQL references `:createdAfter`, so
count, fetch and stream all fail with a missing-parameter error instead of
filtering by `created_at ≥ created_after`; the sibling `created_before`
filter (whose names match) works. -/
theorem claim9_created_after_bug :
    countUsers usersTieTable { createdAfter := some 5 } =
      .error "Parameter createdAfter was not found" ∧
    fetchUsers usersTieTable { createdAfter := some 5 } 0 1000 =
      .error "Parameter createdAfter was not found" ∧
    streamUsers usersTieTable { createdAfter := some 5 } 1000 =
      .error "Parameter createdAfter was not found" ∧
    countUsers usersTieTable { createdBefore := some 10 } = .ok 2 := by
  decide

/-- C10 counterexample: a file whose whole name is `csv` has no extension,
so the claim says it is treated as json; the code takes
`split('.').pop()` — the whole name — and yields csv. -/
theorem claim10_detect_counterexample :
    detectFormat "csv" = "csv" ∧ claimDetectFormat "csv" = "json" ∧
    detectFormat "csv" ≠ claimDetectFormat "csv" := by
  decide

/-- C7 counterexample: with `cast: true` the CSV value `1` is decoded as a
number, not as the raw string the claim promises. -/
theorem claim7_csv_counterexample :
    csvDecode "a\n1" = [[("a", Cell.num "1")]] ∧
    csvDecodeRawStrings "a\n1" = [[("a", Cell.str "1")]] ∧
    csvDecode "a\n1" ≠ csvDecodeRawStrings "a\n1" := by
  decide

/-- C2 counterexample: an NDJSON import whose single line fails JSON parsing
finishes with total = 1, failed = 1 but processed = 0 — the claimed chain
`successful + failed + skipped ≤ processed` is violated (parse-error lines
count into `failedRows` and `totalRows` but never into `processedRows`). -/
theorem claim2_counters_counterexample :
    (processNDJSONStream pbAllValid 1000 maxErrors "\x7b\n").totalRows = 1 ∧
    (processNDJSONStream pbAllValid 1000 maxErrors "\x7b\n").failedRows = 1 ∧
    (processNDJSONStream pbAllValid 1000 maxErrors "\x7b\n").processedRows = 0 ∧
    ¬ ((processNDJSONStream pbAllValid 1000 maxErrors "\x7b\n").successfulRows +
        (processNDJSONStream pbAllValid 1000 maxErrors "\x7b\n").failedRows +
        (processNDJSONStream pbAllValid 1000 maxErrors "\x7b\n").skippedRows ≤
       (processNDJSONStream pbAllValid 1000 maxErrors "\x7b\n").processedRows) := by
  decide

/-- A failed status transition leaves the job table unchanged (the
transaction rolls back). -/
theorem atomicStatusTransition_failure_eq (db : List ImportJob) (jobId : String)
    (f t : JobStatus) (u : JobUpdates) (r : String)
    (h : (atomicStatusTransition db jobId f t u).1 = .failure r) :
    (atomicStatusTransition db jobId f t u).2 = db := by
  unfold atomicStatusTransition at *
  cases hf : findJob db jobId with
  | none => simp [hf]
  | some j =>
    simp only [hf] at h ⊢
    by_cases hs : j.status ≠ f
    · simp [hs]
    · simp [hs] at h

/-- A successful status transition requires the job to exist with exactly
the expected `from` status in the row-locked read. -/
theorem atomicStatusTransition_success_source (db : List ImportJob) (jobId : String)
    (f t : JobStatus) (u : JobUpdates) (j' : ImportJob)
    (h : (atomicStatusTransition db jobId f t u).1 = .success j') :
    ∃ j, findJob db jobId = some j ∧ j.status = f := by
  unfold atomicStatusTransition at h
  cases hf : findJob db jobId with
  | none => simp [hf] at h
  | some j =>
    simp only [hf] at h
    by_cases hs : j.status ≠ f
    · simp [hs] at h
    · exact ⟨j, rfl, not_not.mp hs⟩

/-- C4: the distributed lock is an atomic set-if-absent — when the key is
free, the first of two serialized `acquire` calls (with `retries = 0`, as the
orchestrator configures) obtains the lock and the second gets none; a node's
`processImport` executes the pipeline only if its lock acquisition succeeded
and the row-locked read observed status PENDING; a node that does not run
the pipeline leaves the job table exactly as it found it. -/
theorem claim4_single_pipeline (pipeline : List ImportJob → ImportJob → List ImportJob)
    (kv : RedisKV) (db : List ImportJob) (nodeId token token2 jobId : String) (now : Nat) :
    (kv.lookup ("lock:" ++ ("import-job:" ++ jobId)) = none →
      (acquireLock kv ("import-job:" ++ jobId) token 0).1.isSome ∧
      (acquireLock (acquireLock kv ("import-job:" ++ jobId) token 0).2
        ("import-job:" ++ jobId) token2 0).1 = none) ∧
    ((processImport pipeline kv db nodeId token jobId now).1 = true →
      (acquireLock kv ("import-job:" ++ jobId) token 0).1.isSome ∧
      ∃ j, findJob db jobId = some j ∧ j.status = .pending) ∧
    ((processImport pipeline kv db nodeId token jobId now).1 = false →
      (processImport pipeline kv db nodeId token jobId now).2.2 = db) := by
  refine ⟨fun h => ?_, fun hran => ?_, fun hran => ?_⟩
  · constructor
    · simp [acquireLock, acquireAttempts, redisSetNxPx, h]
    · simp [acquireLock, acquireAttempts, redisSetNxPx, h, List.lookup]
  · cases hacq : (acquireLock kv ("import-job:" ++ jobId) token 0).1 with
    | none => simp [processImport, hacq] at hran
    | some lock =>
      refine ⟨by simp [hacq], ?_⟩
      cases htr : (atomicStatusTransition db jobId .pending .processing
          { lockedBy := some (some nodeId), lockedAt := some (some now),
            startedAt := some (some now) }).1 with
      | failure r => simp [processImport, hacq, htr] at hran
      | success j' => exact atomicStatusTransition_success_source db jobId _ _ _ j' htr
  · cases hacq : (acquireLock kv ("import-job:" ++ jobId) token 0).1 with
    | none => simp [processImport, hacq]
    | some lock =>
      cases htr : (atomicStatusTransition db jobId .pending .processing
          { lockedBy := some (some nodeId), lockedAt := some (some now),
            startedAt := some (some now) }).1 with
      | failure r =>
        simp [processImport, hacq, htr]
        exact atomicStatusTransition_failure_eq db jobId _ _ _ r htr
      | success j' => simp [processImport, hacq, htr] at hran

/-- Witness for C4 on an empty keyspace and the pending job: the first
acquire wins, the second loses, the pipeline runs. -/
theorem claim4_single_pipeline_witness :
    (acquireLock ([] : RedisKV) ("import-job:" ++ "j1") "t1" 0).1.isSome = true ∧
    (acquireLock (acquireLock ([] : RedisKV) ("import-job:" ++ "j1") "t1" 0).2
      ("import-job:" ++ "j1") "t2" 0).1 = none ∧
    (processImport pipelineFixture [] dbPending "node-a" "t1" "j1" 10).1 = true ∧
    findJob dbPending "j1" = some jobPending := by
  have h := claim4_single_pipeline pipelineFixture [] dbPending "node-a" "t1" "t2" "j1" 10
  exact ⟨(h.1 rfl).1, (h.1 rfl).2, by decide, by decide⟩

/-- The pagination loop emits exactly the sorted result set from the given
offset, provided the batch size is positive and the fuel covers the data. -/
theorem streamRecordsGo_eq (sorted : List UserRow) (b : Nat) (hb : 0 < b) :
    ∀ (fuel offset : Nat), sorted.length ≤ offset + fuel * b →
      streamRecordsGo sorted b fuel offset = sorted.drop offset := by
  intro fuel
  induction fuel with
  | zero =>
    intro offset h
    simp only [Nat.zero_mul, Nat.add_zero] at h
    rw [streamRecordsGo]
    exact (List.drop_eq_nil_of_le h).symm
  | succ fuel ih =>
    intro offset h
    rw [streamRecordsGo]
    by_cases hempty : ((sorted.drop offset).take b).isEmpty
    · rw [if_pos hempty]
      rw [List.isEmpty_iff, List.take_eq_nil_iff] at hempty
      rcases hempty with hb0 | hnil
      · omega
      · simp [hnil]
    · rw [if_neg hempty]
      by_cases hfull : ((sorted.drop offset).take b).length = b
      · rw [if_pos hfull, hfull]
        have hcond : sorted.length ≤ (offset + b) + fuel * b := by
          have hs : (fuel + 1) * b = fuel * b + b := Nat.succ_mul fuel b
          omega
        rw [ih (offset + b) hcond]
        have hdd : (sorted.drop offset).drop b = sorted.drop (offset + b) := by
          rw [List.drop_drop, Nat.add_comm]
        rw [← hdd]
        exact List.take_append_drop b (sorted.drop offset)
      · rw [if_neg hfull, List.append_nil]
        have hlt := List.length_take b (sorted.drop offset)
        have hlen : (sorted.drop offset).length ≤ b := by omega
        exact List.take_of_length_le hlen

/-- With `created_after` unset, the WHERE predicate of the users query
resolves (every other clause binds its placeholder under the matching
name). -/
theorem buildPredicate_ok (filters : ExportFilters) (hca : filters.createdAfter = none) :
    ∃ p, buildPredicate (usersClauses filters) = .ok p := by
  rcases filters with ⟨ids, ca, cb, ua, ub, act⟩
  cases hca
  rcases ids with _ | (_ | ⟨x, xs⟩) <;> rcases cb with _ | cb <;> rcases ua with _ | ua <;>
      rcases ub with _ | ub <;> rcases act with _ | act <;>
    first
      | exact ⟨_, rfl⟩
      | (dsimp only [buildPredicate, usersClauses, applyCommonFilters]
         split_ifs <;> exact ⟨_, rfl⟩)

/-- C8 amended: exported rows are emitted in ascending `created_at` order —
with no id tie-break; the order among equal `created_at` values is whatever
the store returns — and the count query applies the same WHERE predicate as
the streaming query, so the persisted total equals the number of streamed
rows.  (Stated for the users query, the one the claim cites; the
`created_after` filter must be unset for the query to build at all, see C9.) -/
theorem claim8_export_order_amended (table : List UserRow) (filters : ExportFilters)
    (b : Nat) (hb : 0 < b) (hca : filters.createdAfter = none) :
    ∃ rows, streamUsers table filters b = .ok rows ∧
      List.Sorted userCreatedLe rows ∧
      countUsers table filters = .ok rows.length := by
  obtain ⟨p, hp⟩ := buildPredicate_ok filters hca
  refine ⟨(table.filter p).insertionSort userCreatedLe, ?_, ?_, ?_⟩
  · unfold streamUsers
    rw [hp]
    dsimp only
    have hcov : ((table.filter p).insertionSort userCreatedLe).length ≤
        0 + (((table.filter p).insertionSort userCreatedLe).length + 1) * b := by
      have h1 := Nat.le_mul_of_pos_right
        (((table.filter p).insertionSort userCreatedLe).length + 1) hb
      omega
    rw [streamRecordsGo_eq _ b hb _ 0 hcov, List.drop_zero]
  · exact List.sorted_insertionSort _ _
  · unfold countUsers
    rw [hp]
    dsimp only
    rw [(List.perm_insertionSort userCreatedLe (table.filter p)).length_eq]

/-- Witness for C8 amended on the concrete tie table: the stream result is
sorted by `createdAt` and its length matches the count. -/
theorem claim8_export_order_amended_witness :
    List.Sorted userCreatedLe [userRowB, userRowA] ∧
    streamUsers usersTieTable {} 1000 = .ok [userRowB, userRowA] ∧
    countUsers usersTieTable {} = .ok 2 := by
  obtain ⟨rows, h1, h2, h3⟩ :=
    claim8_export_order_amended usersTieTable {} 1000 (by decide) rfl
  have hc : streamUsers usersTieTable {} 1000 = .ok [userRowB, userRowA] := by decide
  rw [hc] at h1
  cases h1
  exact ⟨h2, hc, h3⟩

/-- C8 counterexample: two rows with equal `created_at` stored in
descending-id order are streamed in that same order — the single-key
`ORDER BY createdAt` imposes no id tie-break, so the claimed stable
`(created_at, id)` ordering is violated. -/
theorem claim8_export_order_counterexample :
    streamUsers usersTieTable {} 1000 = .ok [userRowB, userRowA] ∧
    userRowB.createdAt = userRowA.createdAt ∧
    userRowB.id ≠ userRowA.id ∧
    ¬ List.Sorted claimExportOrder [userRowB, userRowA] := by
  refine ⟨by decide, rfl, by decide, by decide⟩

/-- JS `split` always yields at least one part. -/
theorem splitOnChar_ne_nil (sep : Char) (cs : List Char) : splitOnChar sep cs ≠ [] := by
  cases cs with
  | nil => simp [splitOnChar]
  | cons c cs =>
    unfold splitOnChar
    cases h : splitOnChar sep cs with
    | nil => simp
    | cons g gs => by_cases hc : c = sep <;> simp [hc]

/-- A list containing the separator splits into at least two parts. -/
theorem splitOnChar_length_ge_two (sep : Char) (cs : List Char) (h : sep ∈ cs) :
    2 ≤ (splitOnChar sep cs).length := by
  induction cs with
  | nil => simp at h
  | cons c cs ih =>
    unfold splitOnChar
    cases hsp : splitOnChar sep cs with
    | nil => exact absurd hsp (splitOnChar_ne_nil sep cs)
    | cons g gs =>
      by_cases hc : c = sep
      · simp [hc]
      · have hmem : sep ∈ cs := by
          rcases List.mem_cons.mp h with h1 | h1
          · exact absurd h1.symm hc
          · exact h1
        have h2 := ih hmem
        rw [hsp] at h2
        simp only [hc, if_neg, List.length_cons] at h2 ⊢
        simpa using h2

/-- A list not containing the separator splits into itself alone. -/
theorem splitOnChar_no_sep (sep : Char) (cs : List Char) (h : sep ∉ cs) :
    splitOnChar sep cs = [cs] := by
  induction cs with
  | nil => rfl
  | cons c cs ih =>
    have hc : ¬ c = sep := fun hh => h (by simp [hh])
    have hcs : sep ∉ cs := fun hh => h (List.mem_cons_of_mem _ hh)
    unfold splitOnChar
    rw [ih hcs]
    simp [hc]

/-- `getLastD` of a non-empty list ignores its default. -/
theorem getLastD_irrel {α : Type} (l : List α) (d1 d2 : α) (h : l ≠ []) :
    l.getLastD d1 = l.getLastD d2 := by
  cases l with
  | nil => exact absurd rfl h
  | cons a l => rw [List.getLastD_cons, List.getLastD_cons]

/-- Without the separator the whole list is its own last segment. -/
theorem lastSeg_no_sep (sep : Char) (cs : List Char) (h : sep ∉ cs) :
    lastSeg sep cs = cs := by
  induction cs with
  | nil => rfl
  | cons c cs ih =>
    have hcond : ¬ (c = sep ∨ sep ∈ cs) := by
      rintro (rfl | hm)
      · exact h (by simp)
      · exact h (List.mem_cons_of_mem _ hm)
    simp [lastSeg, hcond]

/-- The last segment never contains the separator. -/
theorem lastSeg_not_mem (sep : Char) (cs : List Char) : sep ∉ lastSeg sep cs := by
  induction cs with
  | nil => simp [lastSeg]
  | cons c cs ih =>
    unfold lastSeg
    by_cases hcond : c = sep ∨ sep ∈ cs
    · simpa [hcond] using ih
    · push_neg at hcond
      simp only [if_neg (by push_neg; exact hcond : ¬ (c = sep ∨ sep ∈ cs))]
      intro hm
      rcases List.mem_cons.mp hm with h1 | h1
      · exact hcond.1 h1.symm
      · exact hcond.2 h1

/-- With the separator present, the list decomposes as a prefix, the last
separator and the last segment. -/
theorem lastSeg_suffix (sep : Char) (cs : List Char) (h : sep ∈ cs) :
    ∃ p, cs = p ++ sep :: lastSeg sep cs := by
  induction cs with
  | nil => simp at h
  | cons c cs ih =>
    by_cases hm : sep ∈ cs
    · obtain ⟨p, hp⟩ := ih hm
      have hseg : lastSeg sep (c :: cs) = lastSeg sep cs := by simp [lastSeg, hm]
      rw [hseg]
      exact ⟨c :: p, by rw [List.cons_append, ← hp]⟩
    · have hc : c = sep := by
        rcases List.mem_cons.mp h with h1 | h1
        · exact h1.symm
        · exact absurd h1 hm
      have hseg : lastSeg sep (c :: cs) = lastSeg sep cs := by simp [lastSeg, hc]
      rw [hseg, lastSeg_no_sep sep cs hm]
      exact ⟨[], by simp [hc]⟩

/-- The last part produced by JS `split` is exactly the last segment. -/
theorem splitOnChar_getLastD (sep : Char) (cs : List Char) :
    (splitOnChar sep cs).getLastD [] = lastSeg sep cs := by
  induction cs with
  | nil => rfl
  | cons c cs ih =>
    cases hsp : splitOnChar sep cs with
    | nil => exact absurd hsp (splitOnChar_ne_nil sep cs)
    | cons g gs =>
      rw [hsp] at ih
      by_cases hc : c = sep
      · have hseg : lastSeg sep (c :: cs) = lastSeg sep cs := by simp [lastSeg, hc]
        unfold splitOnChar
        rw [hsp, hseg]
        dsimp only
        rw [if_pos hc, List.getLastD_cons]
        exact ih
      · by_cases hmem : sep ∈ cs
        · have hseg : lastSeg sep (c :: cs) = lastSeg sep cs := by simp [lastSeg, hmem]
          have hlen := splitOnChar_length_ge_two sep cs hmem
          rw [hsp] at hlen
          simp only [List.length_cons] at hlen
          have hgs : gs ≠ [] := by
            cases gs
            · simp at hlen
            · simp
          unfold splitOnChar
          rw [hsp, hseg]
          dsimp only
          rw [if_neg hc, List.getLastD_cons, ← ih, List.getLastD_cons]
          exact getLastD_irrel gs (c :: g) g hgs
        · have hnone : sep ∉ c :: cs := by
            intro hm
            rcases List.mem_cons.mp hm with h1 | h1
            · exact hc h1.symm
            · exact hmem h1
          rw [splitOnChar_no_sep sep _ hnone, lastSeg_no_sep sep _ hnone]
          rfl

/-- C10 amended: the detected format is the three-way match applied to the
lowercased last dot-segment of the filename — the true extension when the
name contains a dot, but the **whole filename** when it contains none (so a
file named exactly `csv`, `ndjson` or `jsonl` selects that format instead of
the json fallback the claim asserts). -/
theorem claim10_detect_amended (s : String) :
    detectFormat s = formatOfExt (String.mk (lowerChars (lastSeg '.' s.toList))) ∧
    '.' ∉ lastSeg '.' s.toList ∧
    ('.' ∉ s.toList → lastSeg '.' s.toList = s.toList) ∧
    ('.' ∈ s.toList → ∃ p, s.toList = p ++ '.' :: lastSeg '.' s.toList) := by
  refine ⟨?_, lastSeg_not_mem '.' s.toList, fun h => lastSeg_no_sep '.' s.toList h,
    fun h => lastSeg_suffix '.' s.toList h⟩
  unfold detectFormat
  rw [splitOnChar_getLastD]

/-- Witness for C10 amended: a dotted filename resolves through its real
extension, a dot-free one is its own last segment. -/
theorem claim10_detect_amended_witness :
    detectFormat "data.NDJSON" =
      formatOfExt (String.mk (lowerChars (lastSeg '.' ("data.NDJSON" : String).toList))) ∧
    detectFormat "data.NDJSON" = "ndjson" ∧
    lastSeg '.' ("nodots" : String).toList = ("nodots" : String).toList := by
  refine ⟨(claim10_detect_amended "data.NDJSON").1, by decide,
    (claim10_detect_amended "nodots").2.2.1 (by decide)⟩

/-- Casting the string cells of a zipped row is the same as casting the
values before zipping. -/
theorem zip_map_cast (h : List String) : ∀ r : List String,
    (h.zip (r.map Cell.str)).map castKV = h.zip (r.map castCellValue) := by
  induction h with
  | nil => intro r; simp
  | cons a h ih =>
    intro r
    cases r with
    | nil => simp
    | cons b r => simp [castKV, ih r]

/-- C7 amended: the CSV decoder behaves exactly as the claim describes —
header consumed first, rows keyed by the header, empty lines skipped,
values trimmed — except that `cast: true` converts numeric-looking values
to numbers: the code decoder equals the claimed raw-string decoder followed
by the numeric cast. -/
theorem claim7_csv_amended (input : String) :
    csvDecode input = castCells (csvDecodeRawStrings input) := by
  unfold csvDecode csvDecodeRawStrings castCells
  cases hr : csvRecords input with
  | nil => rfl
  | cons header rows =>
    dsimp only
    rw [List.map_map]
    refine List.map_congr_left (fun r _ => ?_)
    exact (zip_map_cast header r).symm

/-- Counter bookkeeping of the separation loop: it touches only
`failedRows` (once per parse error) and hands the data items through; the
valid records and the parse errors partition the batch. -/
theorem separateItems_spec (cap : Nat) (items : List NdjsonItem) : ∀ acc : StreamResult,
    (separateItems cap items acc).1.totalRows = acc.totalRows ∧
    (separateItems cap items acc).1.processedRows = acc.processedRows ∧
    (separateItems cap items acc).1.successfulRows = acc.successfulRows ∧
    (separateItems cap items acc).1.skippedRows = acc.skippedRows ∧
    (separateItems cap items acc).1.failedRows =
      acc.failedRows + items.countP NdjsonItem.isError ∧
    (separateItems cap items acc).2.length + items.countP NdjsonItem.isError =
      items.length := by
  induction items with
  | nil => intro acc; simp [separateItems]
  | cons item rest ih =>
    intro acc
    cases item with
    | parseError msg n =>
      obtain ⟨h1, h2, h3, h4, h5, h6⟩ := ih
        { acc with
          failedRows := acc.failedRows + 1
          errors :=
            if acc.errors.length < cap then acc.errors ++ [⟨n, none, msg, none⟩]
            else acc.errors }
      dsimp only at h1 h2 h3 h4 h5
      have hcp : (NdjsonItem.parseError msg n :: rest).countP NdjsonItem.isError =
          rest.countP NdjsonItem.isError + 1 :=
        List.countP_cons_of_pos NdjsonItem.isError rest rfl
      simp only [separateItems]
      rw [hcp]
      refine ⟨h1, h2, h3, h4, ?_, ?_⟩
      · rw [h5]; omega
      · simp only [List.length_cons]; omega
    | data j n =>
      obtain ⟨h1, h2, h3, h4, h5, h6⟩ := ih acc
      have hcp : (NdjsonItem.data j n :: rest).countP NdjsonItem.isError =
          rest.countP NdjsonItem.isError :=
        List.countP_cons_of_neg NdjsonItem.isError rest (by simp [NdjsonItem.isError])
      simp only [separateItems]
      rw [hcp]
      refine ⟨h1, h2, h3, h4, h5, ?_⟩
      simp only [List.length_cons]
      omega

/-- The separation loop keeps the error list under the cap. -/
theorem separateItems_errors_le (cap : Nat) (items : List NdjsonItem) :
    ∀ acc : StreamResult, acc.errors.length ≤ cap →
      (separateItems cap items acc).1.errors.length ≤ cap := by
  induction items with
  | nil => intro acc h; simpa [separateItems] using h
  | cons item rest ih =>
    intro acc h
    cases item with
    | parseError msg n =>
      simp only [separateItems]
      refine ih _ ?_
      by_cases hlt : acc.errors.length < cap
      · simp [hlt]; omega
      · simp [hlt]; omega
    | data j n =>
      simp only [separateItems]
      exact ih acc h

/-- The separation loop's counters and valid records do not depend on the
error cap or on the accumulated error list. -/
theorem separateItems_counters_indep (cap1 cap2 : Nat) (items : List NdjsonItem) :
    ∀ acc1 acc2 : StreamResult, counters acc1 = counters acc2 →
      counters (separateItems cap1 items acc1).1 =
        counters (separateItems cap2 items acc2).1 ∧
      (separateItems cap1 items acc1).2 = (separateItems cap2 items acc2).2 := by
  induction items with
  | nil => intro acc1 acc2 h; simpa [separateItems] using h
  | cons item rest ih =>
    intro acc1 acc2 h
    cases item with
    | parseError msg n =>
      simp only [separateItems]
      refine ih _ _ ?_
      simp only [counters, Prod.mk.injEq] at h ⊢
      omega
    | data j n =>
      obtain ⟨h1, h2⟩ := ih acc1 acc2 h
      simp only [separateItems]
      exact ⟨h1, by rw [h2]⟩

/-- One loop iteration of `processNDJSONStream`: total grows by the batch
size, the three outcome counters together grow by exactly the batch size,
processed grows by at most the batch size — and by exactly the batch size
when no item of the batch is a parse error. -/
theorem ndjsonBatchStep_counts (cap : Nat) (pb : List (Json × Nat) → BatchResult)
    (hpb : ∀ rs, (pb rs).successful + (pb rs).failed + (pb rs).skipped = rs.length)
    (acc : StreamResult) (batch : List NdjsonItem) :
    (ndjsonBatchStep cap pb acc batch).totalRows = acc.totalRows + batch.length ∧
    sumSFS (ndjsonBatchStep cap pb acc batch) = sumSFS acc + batch.length ∧
    (ndjsonBatchStep cap pb acc batch).processedRows ≤
      acc.processedRows + batch.length ∧
    ((∀ i ∈ batch, i.isError = false) →
      (ndjsonBatchStep cap pb acc batch).processedRows =
        acc.processedRows + batch.length) := by
  obtain ⟨h1, h2, h3, h4, h5, h6⟩ := separateItems_spec cap batch
    { acc with totalRows := acc.totalRows + batch.length }
  dsimp only at h1 h2 h3 h4 h5
  unfold ndjsonBatchStep
  dsimp only
  by_cases hv : (separateItems cap batch
      { acc with totalRows := acc.totalRows + batch.length }).2.isEmpty
  · rw [if_pos hv]
    rw [List.isEmpty_iff] at hv
    rw [hv] at h6
    simp only [List.length_nil] at h6
    refine ⟨by rw [h1], ?_, ?_, ?_⟩
    · simp only [sumSFS]
      rw [h3, h4, h5]
      omega
    · rw [h2]; omega
    · intro hne
      have hz : batch.countP NdjsonItem.isError = 0 :=
        List.countP_eq_zero.mpr (by intro a ha; simp [hne a ha])
      rw [h2]
      omega
  · rw [if_neg hv]
    have hu := hpb (separateItems cap batch
      { acc with totalRows := acc.totalRows + batch.length }).2
    refine ⟨by rw [h1], ?_, ?_, ?_⟩
    · simp only [sumSFS]
      rw [h3, h4, h5]
      omega
    · dsimp only
      rw [h2]
      omega
    · intro hne
      have hz : batch.countP NdjsonItem.isError = 0 :=
        List.countP_eq_zero.mpr (by intro a ha; simp [hne a ha])
      dsimp only
      rw [h2]
      omega

/-- One loop iteration keeps the stored error list under the cap. -/
theorem ndjsonBatchStep_errors_le (cap : Nat) (pb : List (Json × Nat) → BatchResult)
    (acc : StreamResult) (batch : List NdjsonItem)
    (h : acc.errors.length ≤ cap) :
    (ndjsonBatchStep cap pb acc batch).errors.length ≤ cap := by
  have hsep := separateItems_errors_le cap batch
    { acc with totalRows := acc.totalRows + batch.length } (by simpa using h)
  unfold ndjsonBatchStep
  by_cases hv : (separateItems cap batch
      { acc with totalRows := acc.totalRows + batch.length }).2.isEmpty
  · rw [if_pos hv]; exact hsep
  · rw [if_neg hv]
    dsimp only
    by_cases hlt : (separateItems cap batch
        { acc with totalRows := acc.totalRows + batch.length }).1.errors.length < cap
    · rw [if_pos hlt]
      rw [List.length_append]
      have := List.length_take_le (cap - (separateItems cap batch
        { acc with totalRows := acc.totalRows + batch.length }).1.errors.length)
        (pb (separateItems cap batch
          { acc with totalRows := acc.totalRows + batch.length }).2).errors
      omega
    · rw [if_neg hlt]
      exact hsep

/-- One loop iteration's counters do not depend on the error cap. -/
theorem ndjsonBatchStep_counters_indep (cap1 cap2 : Nat)
    (pb : List (Json × Nat) → BatchResult) (acc1 acc2 : StreamResult)
    (batch : List NdjsonItem) (h : counters acc1 = counters acc2) :
    counters (ndjsonBatchStep cap1 pb acc1 batch) =
      counters (ndjsonBatchStep cap2 pb acc2 batch) := by
  have htot : counters { acc1 with totalRows := acc1.totalRows + batch.length } =
      counters { acc2 with totalRows := acc2.totalRows + batch.length } := by
    simp only [counters, Prod.mk.injEq] at h ⊢
    omega
  obtain ⟨hsep, hval⟩ := separateItems_counters_indep cap1 cap2 batch _ _ htot
  unfold ndjsonBatchStep
  by_cases hv : (separateItems cap1 batch
      { acc1 with totalRows := acc1.totalRows + batch.length }).2.isEmpty
  · rw [if_pos hv, if_pos (by rw [← hval]; exact hv)]
    exact hsep
  · rw [if_neg hv, if_neg (by rw [← hval]; exact hv)]
    simp only [counters, Prod.mk.injEq] at hsep ⊢
    rw [← hval]
    omega

/-- Invariants of the whole batch fold: the three outcome counters sum to
the total, processed never exceeds the total (and equals it when no batch
contains a parse error). -/
theorem ndjsonFold_inv (cap : Nat) (pb : List (Json × Nat) → BatchResult)
    (hpb : ∀ rs, (pb rs).successful + (pb rs).failed + (pb rs).skipped = rs.length)
    (batches : List (List NdjsonItem)) : ∀ acc : StreamResult,
    sumSFS acc = acc.totalRows → acc.processedRows ≤ acc.totalRows →
    (sumSFS (batches.foldl (ndjsonBatchStep cap pb) acc) =
        (batches.foldl (ndjsonBatchStep cap pb) acc).totalRows ∧
      (batches.foldl (ndjsonBatchStep cap pb) acc).processedRows ≤
        (batches.foldl (ndjsonBatchStep cap pb) acc).totalRows ∧
      ((∀ bt ∈ batches, ∀ i ∈ bt, i.isError = false) →
        acc.processedRows = acc.totalRows →
        (batches.foldl (ndjsonBatchStep cap pb) acc).processedRows =
          (batches.foldl (ndjsonBatchStep cap pb) acc).totalRows)) := by
  induction batches with
  | nil => intro acc h1 h2; exact ⟨h1, h2, fun _ h => h⟩
  | cons bt batches ih =>
    intro acc h1 h2
    obtain ⟨s1, s2, s3, s4⟩ := ndjsonBatchStep_counts cap pb hpb acc bt
    obtain ⟨f1, f2, f3⟩ := ih (ndjsonBatchStep cap pb acc bt)
      (by rw [s1, s2, h1]) (by omega)
    refine ⟨f1, f2, fun hne hpt => ?_⟩
    have hbt := s4 (fun i hi => hne bt (List.mem_cons_self bt batches) i hi)
    exact f3 (fun b hb i hi => hne b (List.mem_cons_of_mem bt hb) i hi)
      (by rw [hbt, s1, hpt])

/-- The whole batch fold keeps the stored error list under the cap. -/
theorem ndjsonFold_errors_le (cap : Nat) (pb : List (Json × Nat) → BatchResult)
    (batches : List (List NdjsonItem)) : ∀ acc : StreamResult,
    acc.errors.length ≤ cap →
    (batches.foldl (ndjsonBatchStep cap pb) acc).errors.length ≤ cap := by
  induction batches with
  | nil => intro acc h; exact h
  | cons bt batches ih =>
    intro acc h
    exact ih _ (ndjsonBatchStep_errors_le cap pb acc bt h)

/-- The whole batch fold's counters do not depend on the error cap. -/
theorem ndjsonFold_counters_indep (cap1 cap2 : Nat)
    (pb : List (Json × Nat) → BatchResult) (batches : List (List NdjsonItem)) :
    ∀ acc1 acc2 : StreamResult, counters acc1 = counters acc2 →
      counters (batches.foldl (ndjsonBatchStep cap1 pb) acc1) =
        counters (batches.foldl (ndjsonBatchStep cap2 pb) acc2) := by
  induction batches with
  | nil => intro acc1 acc2 h; exact h
  | cons bt batches ih =>
    intro acc1 acc2 h
    exact ih _ _ (ndjsonBatchStep_counters_indep cap1 cap2 pb acc1 acc2 bt h)

/-- Every element of every batch comes from the batched list. -/
theorem chunksGo_subset {α : Type} (b : Nat) : ∀ (fuel : Nat) (l bt : List α),
    bt ∈ chunksGo b fuel l → ∀ x ∈ bt, x ∈ l := by
  intro fuel
  induction fuel with
  | zero =>
    intro l bt hbt x hx
    cases l with
    | nil => simp [chunksGo] at hbt
    | cons a l =>
      simp only [chunksGo, List.mem_singleton] at hbt
      rw [hbt] at hx
      exact hx
  | succ fuel ih =>
    intro l bt hbt x hx
    cases l with
    | nil => simp [chunksGo] at hbt
    | cons a l =>
      have hstep : chunksGo b (fuel + 1) (a :: l) =
          (a :: l).take b :: chunksGo b fuel ((a :: l).drop b) := rfl
      rw [hstep] at hbt
      rcases List.mem_cons.mp hbt with rfl | hmem
      · exact List.take_subset b (a :: l) hx
      · exact List.drop_subset b (a :: l) (ih _ bt hmem x hx)

/-- Filtering the always-valid verdicts keeps every record. -/
theorem filterValid_triv (rs : List (Json × Nat)) :
    ((rs.map (fun p => (p.1, p.2, ([] : List FieldError)))).filter
      (fun v => v.2.2.isEmpty)) = rs.map (fun p => (p.1, p.2, [])) := by
  induction rs with
  | nil => rfl
  | cons r rs ih => simp [ih]

/-- Filtering the always-valid verdicts for invalid records yields nothing. -/
theorem filterInvalid_triv (rs : List (Json × Nat)) :
    ((rs.map (fun p => (p.1, p.2, ([] : List FieldError)))).filter
      (fun v => !v.2.2.isEmpty)) = [] := by
  induction rs with
  | nil => rfl
  | cons r rs ih => simp [ih]

/-- The all-valid batch processor conserves the record count. -/
theorem pbAllValid_conserves (rs : List (Json × Nat)) :
    (pbAllValid rs).successful + (pbAllValid rs).failed + (pbAllValid rs).skipped =
      rs.length := by
  unfold pbAllValid processBatchWithLineNumbers
  dsimp only
  rw [filterValid_triv, filterInvalid_triv]
  cases rs with
  | nil => rfl
  | cons r rs =>
    simp [invalidRecordsFold]

/-- C2 amended: over the NDJSON pipeline the persisted counters satisfy
`successful + failed + skipped = total` and `processed ≤ total`; the chain
the claim asserts — `successful + failed + skipped ≤ processed` — holds
exactly when no line fails JSON parsing, because parse-error lines are
counted failed (and total) but never processed.  `pb` abstracts the per-batch
validate-and-upsert step; the hypothesis is the bookkeeping fact that each
record of a batch lands in exactly one of the three outcome counters. -/
theorem claim2_counters_amended (pb : List (Json × Nat) → BatchResult)
    (batchSize : Nat) (input : String)
    (hpb : ∀ rs, (pb rs).successful + (pb rs).failed + (pb rs).skipped = rs.length) :
    sumSFS (processNDJSONStream pb batchSize maxErrors input) =
      (processNDJSONStream pb batchSize maxErrors input).totalRows ∧
    (processNDJSONStream pb batchSize maxErrors input).processedRows ≤
      (processNDJSONStream pb batchSize maxErrors input).totalRows ∧
    ((∀ i ∈ ndjsonParseTransform input, i.isError = false) →
      sumSFS (processNDJSONStream pb batchSize maxErrors input) ≤
        (processNDJSONStream pb batchSize maxErrors input).processedRows) := by
  obtain ⟨h1, h2, h3⟩ := ndjsonFold_inv maxErrors pb hpb
    (batchTransform batchSize (ndjsonParseTransform input)) {} (by rfl) (by simp)
  unfold processNDJSONStream
  refine ⟨h1, h2, fun hne => ?_⟩
  have hall : ∀ bt ∈ batchTransform batchSize (ndjsonParseTransform input),
      ∀ i ∈ bt, i.isError = false := by
    intro bt hbt i hi
    exact hne i (chunksGo_subset batchSize _ _ bt hbt i hi)
  have := h3 hall rfl
  rw [h1, this]

/-- Witness for C2 amended: a single valid NDJSON line satisfies the chain. -/
theorem claim2_counters_amended_witness :
    sumSFS (processNDJSONStream pbAllValid 1000 maxErrors "\x7b\"a\":1\x7d\n") ≤
      (processNDJSONStream pbAllValid 1000 maxErrors "\x7b\"a\":1\x7d\n").processedRows ∧
    (processNDJSONStream pbAllValid 1000 maxErrors "\x7b\"a\":1\x7d\n").totalRows = 1 := by
  have h := claim2_counters_amended pbAllValid 1000 "\x7b\"a\":1\x7d\n" pbAllValid_conserves
  exact ⟨h.2.2 (by decide), by decide⟩

/-- C6: the stored error list never exceeds 100 entries — neither in the
stream accumulator nor in the finalize updates that persist it (which
truncate with `slice(0, 100)`) — while the five counters are computed
independently of the cap: failures beyond the 100th are counted but not
stored. -/
theorem claim6_errors_capped (pb : List (Json × Nat) → BatchResult)
    (batchSize cap1 cap2 : Nat) (input : String) (now : Nat) :
    (processNDJSONStream pb batchSize maxErrors input).errors.length ≤ maxErrors ∧
    (((importFinalizeUpdates (processNDJSONStream pb batchSize maxErrors input)
        now).errors.getD []).length ≤ maxErrors) ∧
    counters (processNDJSONStream pb batchSize cap1 input) =
      counters (processNDJSONStream pb batchSize cap2 input) := by
  refine ⟨?_, ?_, ?_⟩
  · exact ndjsonFold_errors_le maxErrors pb
      (batchTransform batchSize (ndjsonParseTransform input)) {} (by simp)
  · simp only [importFinalizeUpdates, Option.getD_some]
    exact List.length_take_le maxErrors _
  · exact ndjsonFold_counters_indep cap1 cap2 pb
      (batchTransform batchSize (ndjsonParseTransform input)) {} {} rfl

end BulkIE
